import Mathlib

/-!
Verification of the emotion transform core of `packages/next-swc/crates/core`:
the package-root resolver (`emotion/global_parent_cache.rs`, `find_root`),
the stable-identifier generator and the import-usage registry
(`emotion/mod.rs`).  The Rust code is shallowly embedded below; machine
integers are `Nat` with explicit truncation, filesystem access is an explicit
oracle, and the process-wide cache is threaded as a value.
-/

set_option maxHeartbeats 1000000

namespace Emotion

/-- Component of an absolute filesystem path.  A component is either valid
text or a non-text (non-UTF-8) chunk identified by a number, so that
`pathToStr` can fail exactly like `std::path::Path::to_str` does in the
source. -/
inductive PComp
  | txt (s : String)
  | bin (id : Nat)
deriving DecidableEq

/-- Absolute path, stored as its components innermost-first, so the head is
the last component and `List.tail` is `Path::parent`. -/
abbrev Path := List PComp

/-- Rendering of one component, as `OsStr::to_str`: text gives the string,
non-text gives nothing. -/
def PComp.toStr : PComp → Option String
  | .txt s => some s
  | .bin _ => none

/-- Components rendered in order; fails if any component is not representable
as text. -/
def renderComps : List PComp → Option (List String)
  | [] => some []
  | c :: rest =>
    match c.toStr, renderComps rest with
    | some s, some l => some (s :: l)
    | _, _ => none

/-- Joins rendered components into the usual absolute-path spelling. -/
def joinComps : List String → String
  | [] => ""
  | s :: rest => "/" ++ s ++ joinComps rest

/-- Embeds `Path::to_str` (an option, since a path need not be valid UTF-8):
the absolute path spelled the usual way, the filesystem root spelled `/`. -/
def pathToStr (p : Path) : Option String :=
  (renderComps p.reverse).map (fun parts => if parts.isEmpty then "/" else joinComps parts)

/-- Fuel-driven core of `str::trim_start_matches`: strips `pat` from the front
of `s` as long as it is a prefix.  Each successful strip removes at least one
character, so fuel `s.length` reaches the fixpoint; the fuel keeps the
recursion structural.  An empty pattern strips nothing, as in the source. -/
def trimAux : Nat → List Char → List Char → List Char
  | 0, s, _ => s
  | fuel + 1, s, pat =>
    if pat ≠ [] ∧ pat.isPrefixOf s then trimAux fuel (s.drop pat.length) pat else s

/-- Embeds `str::trim_start_matches` with a string pattern: repeatedly removes
`pat` from the front of `s` while it remains a prefix. -/
def trimStartMatches (s pat : String) : String :=
  ⟨trimAux s.data.length s.data pat.data⟩

/-- Wording of the claim under scrutiny, for comparison only: strip the root
from the front exactly once when it is a prefix. -/
def specStripPrefixOnce (filename root : String) : String :=
  if root.data.isPrefixOf filename.data then ⟨filename.data.drop root.data.length⟩ else filename

/-- UTF-8 bytes of one character. -/
def utf8Bytes (c : Char) : List Nat :=
  let n := c.toNat
  if n < 128 then [n]
  else if n < 2048 then [192 + n / 64, 128 + n % 64]
  else if n < 65536 then [224 + n / 4096, 128 + n / 64 % 64, 128 + n % 64]
  else [240 + n / 262144, 128 + n / 4096 % 64, 128 + n / 64 % 64, 128 + n % 64]

/-- Embeds `str::as_bytes`: the UTF-8 byte sequence of a string. -/
def strBytes (s : String) : List Nat :=
  (s.data.map utf8Bytes).flatten

/-- Truncation to 32 bits, standing for `u32` arithmetic. -/
def w32 (n : Nat) : Nat := n % 2 ^ 32

/-- The Murmur2 multiplicative constant. -/
def murmurM : Nat := 0x5bd1e995

/-- Modelled from the spec: main loop of the 32-bit Murmur2 hash.  The module
`hash` of the source (file `hash.rs`) is not among the provided sources; spec
section 4.2 fixes a 32-bit non-cryptographic Murmur2-family hash with a fixed
seed.  Four-byte words are read little-endian, mixed and folded into the
state; up to three trailing bytes and the final avalanche follow the standard
Murmur2 layout.  All intermediate values are `u32`, hence the `w32` wrappers. -/
def murmurRounds : Nat → List Nat → Nat
  | h, b0 :: b1 :: b2 :: b3 :: rest =>
    let k := b0 + 256 * b1 + 65536 * b2 + 16777216 * b3
    let k := w32 (k * murmurM)
    let k := w32 (k ^^^ (k >>> 24))
    let k := w32 (k * murmurM)
    murmurRounds (w32 (w32 (h * murmurM) ^^^ k)) rest
  | h, tail =>
    let h1 :=
      match tail with
      | [b0] => w32 (w32 (h ^^^ b0) * murmurM)
      | [b0, b1] => w32 (w32 (h ^^^ (b0 + 256 * b1)) * murmurM)
      | [b0, b1, b2] => w32 (w32 (h ^^^ (b0 + 256 * b1 + 65536 * b2)) * murmurM)
      | _ => h
    let h2 := w32 (h1 ^^^ (h1 >>> 13))
    let h3 := w32 (h2 * murmurM)
    w32 (h3 ^^^ (h3 >>> 15))

/-- Modelled from the spec: `hash::murmurhash2` with seed 0; the state starts
as `seed XOR length` and `murmurRounds` consumes the bytes. -/
def murmurhash2 (bytes : List Nat) : Nat :=
  murmurRounds (w32 (0 ^^^ bytes.length)) bytes

/-- From `enum ImportType`. -/
inductive ImportType
  | Named
  | Namespace
  | Default
deriving DecidableEq

/-- From `struct PackageMeta`. -/
structure PackageMeta where
  _type : ImportType
deriving DecidableEq

/-- The per-file registry `import_packages`, modelled as an insert-at-front
association list: `FxHashMap::insert` overwrites, which cons plus first-match
lookup reproduces. -/
abbrev Registry := List (String × PackageMeta)

/-- Map lookup on the registry. -/
def lookupReg (reg : Registry) (k : String) : Option PackageMeta :=
  (reg.find? (fun e => decide (e.1 = k))).map (fun e => e.2)

/-- Map insert (overwrite) on the registry. -/
def insertReg (reg : Registry) (k : String) (v : PackageMeta) : Registry :=
  (k, v) :: reg

/-- From `struct EmotionModuleConfig`. -/
structure EmotionModuleConfig where
  module_name : String
  exported_names : List String
  include_sub_path : Option Bool
  has_default_export : Option Bool
deriving DecidableEq

/-- The built-in module list `EMOTION_OFFICIAL_LIBRARIES`: a default-exported
styling factory and a named `css` helper. -/
def EMOTION_OFFICIAL_LIBRARIES : List EmotionModuleConfig :=
  [⟨"@emotion/styled", ["styled"], none, some true⟩,
   ⟨"@emotion/react", ["css"], none, none⟩]

/-- From `struct EmotionOptions`. -/
structure EmotionOptions where
  enabled : Option Bool
  sourcemap : Option Bool
  auto_label : Option Bool
  label_format : Option String
  auto_inject : Option Bool
  custom_modules : Option (List EmotionModuleConfig)
  jsx_factory : Option String
  jsx_import_source : Option String
deriving DecidableEq

/-- Import specifier forms, from swc `ImportSpecifier`.  A named specifier
carries the local (possibly aliased) binding plus the original exported name
it renames; the latter is `none` when no alias is written. -/
inductive ImportSpecifier
  | Named (localName : String) (imported : Option String)
  | Default (localName : String)
  | Namespace (localName : String)
deriving DecidableEq

/-- From swc `ImportDecl`: source module string, the type-only flag, and the
specifier list. -/
structure ImportDecl where
  src : String
  type_only : Bool
  specifiers : List ImportSpecifier
deriving DecidableEq

/-- One specifier processed against one matching module configuration: the
body of the specifier loop of `generate_import_info`.  The named arm mirrors
the inner `for export_name in c.exported_names` loop literally: the local
name is compared against each recognized exported name (the `imported`
pre-aliasing name is never consulted by the source). -/
def processSpecifier (c : EmotionModuleConfig) (reg : Registry) (s : ImportSpecifier) : Registry :=
  match s with
  | .Named localName _imported =>
    c.exported_names.foldl
      (fun reg export_name =>
        if localName = export_name then insertReg reg localName ⟨ImportType.Named⟩ else reg)
      reg
  | .Default localName =>
    if c.has_default_export.getD false then insertReg reg localName ⟨ImportType.Default⟩ else reg
  | .Namespace localName => insertReg reg localName ⟨ImportType.Namespace⟩

/-- Embeds `EmotionTransformer::generate_import_info`: every configuration in
the chain built-ins-then-custom whose module name equals the import source
string processes all specifiers of the declaration. -/
def generateImportInfo (custom_modules : List EmotionModuleConfig) (reg : Registry)
    (expr : ImportDecl) : Registry :=
  (EMOTION_OFFICIAL_LIBRARIES ++ custom_modules).foldl
    (fun reg c =>
      if expr.src = c.module_name then expr.specifiers.foldl (processSpecifier c) reg else reg)
    reg

/-- From `struct RootPathInfo`. -/
structure RootPathInfo where
  package_name : String
  root_path : Path
deriving DecidableEq

/-- The process-wide parent cache, an association list standing for the map
inside `GlobalParentCache` (insert-at-front equals overwrite on lookup). -/
abbrev Cache := List (Path × RootPathInfo)

/-- Embeds `GlobalParentCache::get`. -/
def cacheGet (cache : Cache) (p : Path) : Option RootPathInfo :=
  (cache.find? (fun e => decide (e.1 = p))).map (fun e => e.2)

/-- The raw map insert inside `GlobalParentCache::insert`. -/
def cacheInsert (cache : Cache) (p : Path) (info : RootPathInfo) : Cache :=
  (p, info) :: cache

/-- Filesystem oracle.  `dirExists` embeds `Path::exists`; `manifest d = some
name` means `d/package.json` exists and parses with that `name` field.  The
behavior of `insert` on a manifest that exists but cannot be opened or parsed
is embedded separately by `cacheInsertChecked`. -/
structure FS where
  dirExists : Path → Bool
  manifest : Path → Option String

/-- Embeds `find_root`: take the parent of `p`; a cached parent returns its
cached value; an existing parent holding a manifest is recorded in the cache
and returned; an existing parent without a manifest recurses; a parent that
does not exist on disk, or a path without parent, yields nothing. -/
def findRoot (fs : FS) (cache : Cache) : Path → Option RootPathInfo × Cache
  | [] => (none, cache)
  | _ :: parent =>
    match cacheGet cache parent with
    | some info => (some info, cache)
    | none =>
      if fs.dirExists parent then
        match fs.manifest parent with
        | some nm => (some ⟨nm, parent⟩, cacheInsert cache parent ⟨nm, parent⟩)
        | none => findRoot fs cache parent
      else (none, cache)

/-- Embeds `GlobalParentCache::insert` with its two `unwrap` calls made
visible: the source opens `parent/package.json` and parses it, unwrapping
both results; `Except.error` marks the panic (a process abort) raised when
either step fails.  `fileContents` is the outcome of `File::open` plus read,
and `parseName` is the serde extraction of the `name` field. -/
def cacheInsertChecked (fileContents : Option String) (parseName : String → Option String)
    (cache : Cache) (p parent : Path) : Except Unit (RootPathInfo × Cache) :=
  match fileContents with
  | none => Except.error ()
  | some raw =>
    match parseName raw with
    | none => Except.error ()
    | some nm => Except.ok (⟨nm, parent⟩, cacheInsert cache p ⟨nm, parent⟩)

/-- From `swc_common::FileName`, reduced to the one distinction the source
makes: a real path or anything else. -/
inductive FileName
  | real (p : Path)
  | notReal
deriving DecidableEq

/-- The two fields of `swc_common::SourceFile` the transformer reads. -/
structure SourceFileInfo where
  name : FileName
  src : String
deriving DecidableEq

/-- Object-literal properties, enough to track the spliced `target` pair. -/
inductive PropShape
  | kv (key value : String)
  | otherProp
deriving DecidableEq

/-- Shape of a call argument expression: an object literal or anything else. -/
inductive ArgExpr
  | object (props : List PropShape)
  | nonObject
deriving DecidableEq

/-- From swc `ExprOrSpread`; the source never reads the spread flag. -/
structure ExprOrSpread where
  spread : Bool
  expr : ArgExpr
deriving DecidableEq

/-- Shape of a callee, following the match in `fold_call_expr`: an expression
that is a plain identifier, a call, a member access, any other expression, or
a non-expression callee. -/
inductive CalleeShape
  | exprIdent (sym : String)
  | exprCall
  | exprMember
  | exprOther
  | notExpr
deriving DecidableEq

/-- From swc `CallExpr`. -/
structure CallExpr where
  callee : CalleeShape
  args : List ExprOrSpread
deriving DecidableEq

/-- From `struct EmotionTransformer`. -/
structure EmotionTransformer where
  options : EmotionOptions
  source_file : SourceFileInfo
  _react_jsx_runtime : Bool
  _es_module_interop : Bool
  custom_modules : List EmotionModuleConfig
  import_packages : Registry
  emotion_target_class_name_count : Nat
deriving DecidableEq

/-- Embeds `EmotionTransformer::new`: custom modules are copied out of the
options, the registry starts empty and the per-file counter starts at 0. -/
def newEmotionTransformer (options : EmotionOptions) (source_file : SourceFileInfo)
    (react_jsx_runtime es_module_interop : Bool) : EmotionTransformer :=
  ⟨options, source_file, react_jsx_runtime, es_module_interop,
   options.custom_modules.getD [], [], 0⟩

/-- Embeds `fold_import_decl`: type-only imports are returned untouched and
contribute nothing; everything else runs `generate_import_info`. -/
def foldImportDecl (t : EmotionTransformer) (expr : ImportDecl) : EmotionTransformer :=
  if expr.type_only then t
  else { t with import_packages := generateImportInfo t.custom_modules t.import_packages expr }

/-- Embeds the `final_path` computation of `fold_call_expr` (lines 197-209):
the literal `root` when the resolved root path equals the file path, else the
rendered file path with the rendered root trimmed from the front; if either
path fails to render, the full source text of the file. -/
def finalPath (source_src : String) (root_path filename : Path) : String :=
  if root_path = filename then "root"
  else
    ((pathToStr root_path).bind (fun root =>
      (pathToStr filename).map (fun fn => trimStartMatches fn root))).getD source_src

/-- Embeds the `stable_class_name` format expression of `fold_call_expr`
(lines 210-216): letter `e`, then the hash of package name concatenated with
the path fragment in decimal, then the counter in decimal. -/
def stableClassName (package_name final_path : String) (count : Nat) : String :=
  "e" ++ Nat.repr (murmurhash2 (strBytes (package_name ++ final_path))) ++ Nat.repr count

/-- Embeds the `match expr.args.len()` block of `fold_call_expr` (lines
223-239): with exactly one argument a fresh object argument carrying the
`target` pair is pushed; with exactly two and an object-literal second
argument the pair is pushed onto it; in every other case the call is left as
it came. -/
def spliceArgs (expr : CallExpr) (stable_class_name : String) : CallExpr :=
  let target_assignment := PropShape.kv "target" stable_class_name
  match expr.args with
  | [a1] => { expr with args := [a1, ⟨false, ArgExpr.object [target_assignment]⟩] }
  | [a1, a2] =>
    match a2.expr with
    | ArgExpr.object props =>
      { expr with
        args := [a1, { a2 with expr := ArgExpr.object (props ++ [target_assignment]) }] }
    | _ => expr
  | _ => expr

/-- Embeds `fold_call_expr`.  An empty registry short-circuits; only a plain
identifier callee that is registered, with a non-empty argument list and a
real file name, resolves the root, generates the stable class name, bumps the
counter and splices a `target` property via `spliceArgs`. -/
def foldCallExpr (fs : FS) (cache : Cache) (t : EmotionTransformer) (expr : CallExpr) :
    CallExpr × EmotionTransformer × Cache :=
  if t.import_packages.isEmpty then (expr, t, cache)
  else
    match expr.callee with
    | CalleeShape.exprIdent i =>
      if (lookupReg t.import_packages i).isSome && !expr.args.isEmpty then
        match t.source_file.name with
        | FileName.real filename =>
          let fr := findRoot fs cache filename
          let root_info := fr.1.getD ⟨"", filename⟩
          let final_path := finalPath t.source_file.src root_info.root_path filename
          let stable_class_name :=
            stableClassName root_info.package_name final_path t.emotion_target_class_name_count
          let t' :=
            { t with emotion_target_class_name_count := t.emotion_target_class_name_count + 1 }
          (spliceArgs expr stable_class_name, t', fr.2)
        | _ => (expr, t, cache)
      else (expr, t, cache)
    | _ => (expr, t, cache)

/-- Observer: the exact condition under which one `foldCallExpr` step
generates an identifier and bumps the per-file counter. -/
def generationTriggered (t : EmotionTransformer) (e : CallExpr) : Bool :=
  !t.import_packages.isEmpty &&
    (match e.callee with
     | CalleeShape.exprIdent i =>
       ((lookupReg t.import_packages i).isSome && !e.args.isEmpty) &&
         (match t.source_file.name with
          | FileName.real _ => true
          | _ => false)
     | _ => false)

/-- Module items in source order, as the host fold visits them. -/
inductive ModuleItem
  | importItem (d : ImportDecl)
  | callItem (e : CallExpr)
  | otherItem
deriving DecidableEq

/-- One visited item: imports feed the registry, calls run the transform,
anything else is untouched. -/
def foldItem (fs : FS) (acc : EmotionTransformer × Cache) (it : ModuleItem) :
    EmotionTransformer × Cache :=
  match it with
  | .importItem d => (foldImportDecl acc.1 d, acc.2)
  | .callItem e =>
    let r := foldCallExpr fs acc.2 acc.1 e
    (r.2.1, r.2.2)
  | .otherItem => acc

/-- One file pass over its items. -/
def foldItems (fs : FS) (acc : EmotionTransformer × Cache) :
    List ModuleItem → EmotionTransformer × Cache
  | [] => acc
  | it :: rest => foldItems fs (foldItem fs acc it) rest

/-- Sequence components carried by the generated identifiers of one file pass,
in order: the counter value at each item that generates one. -/
def seqTrace (fs : FS) : EmotionTransformer → Cache → List ModuleItem → List Nat
  | _, _, [] => []
  | t, cache, it :: rest =>
    let acc := foldItem fs (t, cache) it
    (if t.emotion_target_class_name_count < acc.1.emotion_target_class_name_count
      then [t.emotion_target_class_name_count] else []) ++ seqTrace fs acc.1 acc.2 rest

/-- Wording of claim C8: the ways one specifier of one matching configuration
may register the key `k`. -/
def specRegisters (c : EmotionModuleConfig) (s : ImportSpecifier) (k : String) : Prop :=
  (∃ imp, s = ImportSpecifier.Named k imp ∧ k ∈ c.exported_names) ∨
  (s = ImportSpecifier.Default k ∧ c.has_default_export.getD false = true) ∨
  s = ImportSpecifier.Namespace k

/-- A filesystem oracle on which nothing exists. -/
def fsEmpty : FS := ⟨fun _ => false, fun _ => none⟩

/-- Options with every field unset, for concrete instances. -/
def sampleOptions : EmotionOptions := ⟨none, none, none, none, none, none, none, none⟩

/-- A source file at the real path `/pkg/file.ts`. -/
def sampleSourceFile : SourceFileInfo :=
  ⟨FileName.real [PComp.txt "file.ts", PComp.txt "pkg"], "let x = 1;"⟩

/-- A transformer with `css` registered and the counter at 0. -/
def sampleTransformer : EmotionTransformer :=
  { newEmotionTransformer sampleOptions sampleSourceFile false false with
    import_packages := [("css", ⟨ImportType.Named⟩)] }

/-- A three-argument call to the registered `css`. -/
def sampleCall3 : CallExpr :=
  ⟨CalleeShape.exprIdent "css",
   [⟨false, ArgExpr.nonObject⟩, ⟨false, ArgExpr.nonObject⟩, ⟨false, ArgExpr.nonObject⟩]⟩

/-- A one-argument call to the registered `css`. -/
def sampleCall1 : CallExpr :=
  ⟨CalleeShape.exprIdent "css", [⟨false, ArgExpr.nonObject⟩]⟩

/-- A filesystem on which only the directory `/pkg` exists and holds a
manifest naming the package `pkg-a`. -/
def fsSample : FS :=
  ⟨fun p => decide (p = [PComp.txt "pkg"]),
   fun p => if p = [PComp.txt "pkg"] then some "pkg-a" else none⟩

/-! ### Helper lemmas -/

theorem w32_lt (n : Nat) : w32 n < 2 ^ 32 :=
  Nat.mod_lt _ (by norm_num)

theorem murmurRounds_lt : ∀ (l : List Nat) (h : Nat), murmurRounds h l < 2 ^ 32
  | [], _ => w32_lt _
  | [_], _ => w32_lt _
  | [_, _], _ => w32_lt _
  | [_, _, _], _ => w32_lt _
  | _ :: _ :: _ :: _ :: rest, h => by
    show murmurRounds _ rest < 2 ^ 32
    exact murmurRounds_lt rest _

theorem murmurhash2_lt (bytes : List Nat) : murmurhash2 bytes < 2 ^ 32 :=
  murmurRounds_lt _ _

theorem digitChar_isDigit (m : Nat) (h : m < 10) : (Nat.digitChar m).isDigit = true := by
  interval_cases m <;> decide

theorem toDigitsCore_digits :
    ∀ (fuel n : Nat) (acc : List Char), (∀ c ∈ acc, c.isDigit = true) →
      ∀ c ∈ Nat.toDigitsCore 10 fuel n acc, c.isDigit = true := by
  intro fuel
  induction fuel with
  | zero => intro n acc hacc c hc; exact hacc c hc
  | succ fuel ih =>
    intro n acc hacc c hc
    simp only [Nat.toDigitsCore] at hc
    have hd : ∀ x ∈ Nat.digitChar (n % 10) :: acc, x.isDigit = true := by
      intro x hx
      rcases List.mem_cons.mp hx with hx | hx
      · subst hx; exact digitChar_isDigit _ (Nat.mod_lt _ (by norm_num))
      · exact hacc x hx
    by_cases hz : n / 10 = 0
    · rw [if_pos hz] at hc
      exact hd c hc
    · rw [if_neg hz] at hc
      exact ih (n / 10) _ hd c hc

theorem repr_digits (n : Nat) : ∀ c ∈ (Nat.repr n).data, c.isDigit = true := by
  intro c hc
  have : (Nat.repr n).data = Nat.toDigitsCore 10 (n + 1) n [] := rfl
  rw [this] at hc
  exact toDigitsCore_digits (n + 1) n [] (by simp) c hc

theorem trimAux_spec :
    ∀ (fuel : Nat) (s pat : List Char), pat ≠ [] → s.length ≤ fuel →
      ∃ k, s = (List.replicate k pat).flatten ++ trimAux fuel s pat ∧
        pat.isPrefixOf (trimAux fuel s pat) = false := by
  intro fuel
  induction fuel with
  | zero =>
    intro s pat hpat hlen
    have hs : s = [] := List.length_eq_zero.mp (Nat.le_zero.mp hlen)
    subst hs
    refine ⟨0, by simp [trimAux], ?_⟩
    cases pat with
    | nil => exact absurd rfl hpat
    | cons a l => simp [trimAux]
  | succ fuel ih =>
    intro s pat hpat hlen
    cases hpre : pat.isPrefixOf s with
    | true =>
      obtain ⟨rest, hrest⟩ := List.isPrefixOf_iff_prefix.mp hpre
      have hdrop : s.drop pat.length = rest := by
        rw [← hrest]; exact List.drop_left _ _
      have hplen : 0 < pat.length := List.length_pos.mpr hpat
      have hrlen : rest.length ≤ fuel := by
        have hl := congrArg List.length hrest
        simp only [List.length_append] at hl
        omega
      have heq : trimAux (fuel + 1) s pat = trimAux fuel rest pat := by
        simp [trimAux, hpat, hpre, hdrop]
      obtain ⟨k, hk1, hk2⟩ := ih rest pat hpat hrlen
      refine ⟨k + 1, ?_, by rw [heq]; exact hk2⟩
      rw [heq, ← hrest]
      conv_lhs => rw [hk1]
      simp [List.replicate_succ, List.append_assoc]
    | false =>
      have heq : trimAux (fuel + 1) s pat = s := by
        simp [trimAux, hpre]
      rw [heq]
      exact ⟨0, by simp, hpre⟩

theorem trimStartMatches_spec (s pat : String) (hpat : pat.data ≠ []) :
    ∃ k, s.data = (List.replicate k pat.data).flatten ++ (trimStartMatches s pat).data ∧
      pat.data.isPrefixOf (trimStartMatches s pat).data = false :=
  trimAux_spec s.data.length s.data pat.data hpat (Nat.le_refl _)

theorem joinComps_data_cons (s : String) (rest : List String) :
    (joinComps (s :: rest)).data = '/' :: (s.data ++ (joinComps rest).data) := by
  show (("/" ++ s) ++ joinComps rest).data = _
  rw [String.data_append, String.data_append]
  rfl

theorem pathToStr_data_ne_nil (p : Path) (r : String) (h : pathToStr p = some r) :
    r.data ≠ [] := by
  unfold pathToStr at h
  cases hr : renderComps p.reverse with
  | none => rw [hr] at h; simp at h
  | some parts =>
    rw [hr] at h
    simp only [Option.map_some', Option.some.injEq] at h
    subst h
    cases parts with
    | nil => simp
    | cons s rest =>
      simp only [List.isEmpty_cons, Bool.false_eq_true, if_false]
      rw [joinComps_data_cons]
      simp

theorem lookupReg_insert (reg : Registry) (k k' : String) (v : PackageMeta) :
    lookupReg (insertReg reg k' v) k = if k' = k then some v else lookupReg reg k := by
  by_cases h : k' = k
  · simp [lookupReg, insertReg, List.find?, h]
  · simp [lookupReg, insertReg, List.find?, h]

theorem lookupReg_insert_isSome (reg : Registry) (k k' : String) (v : PackageMeta)
    (h : (lookupReg reg k).isSome = true) :
    (lookupReg (insertReg reg k' v) k).isSome = true := by
  rw [lookupReg_insert]
  by_cases hk : k' = k <;> simp [hk, h]

theorem lookupReg_foldl_isSome {α : Type} (step : Registry → α → Registry)
    (hstep : ∀ reg a k, (lookupReg reg k).isSome = true →
      (lookupReg (step reg a) k).isSome = true)
    (l : List α) (reg : Registry) (k : String) (h : (lookupReg reg k).isSome = true) :
    (lookupReg (l.foldl step reg) k).isSome = true := by
  induction l generalizing reg with
  | nil => exact h
  | cons a l ih => exact ih _ (hstep _ _ _ h)

theorem namedStep_mono (localName : String) (reg : Registry) (en : String) (k : String)
    (h : (lookupReg reg k).isSome = true) :
    (lookupReg (if localName = en then insertReg reg localName ⟨ImportType.Named⟩ else reg)
      k).isSome = true := by
  by_cases he : localName = en
  · rw [if_pos he]; exact lookupReg_insert_isSome _ _ _ _ h
  · rw [if_neg he]; exact h

theorem processSpecifier_mono (c : EmotionModuleConfig) (s : ImportSpecifier) (reg : Registry)
    (k : String) (h : (lookupReg reg k).isSome = true) :
    (lookupReg (processSpecifier c reg s) k).isSome = true := by
  cases s with
  | Named localName imported =>
    exact lookupReg_foldl_isSome _ (fun reg a k h => namedStep_mono localName reg a k h)
      c.exported_names reg k h
  | Default localName =>
    simp only [processSpecifier]
    by_cases hd : c.has_default_export.getD false = true
    · rw [if_pos hd]; exact lookupReg_insert_isSome _ _ _ _ h
    · rw [if_neg hd]; exact h
  | Namespace localName => exact lookupReg_insert_isSome _ _ _ _ h

theorem namedFoldl_establish (localName : String) (names : List String) (reg : Registry)
    (h : localName ∈ names) :
    (lookupReg
      (names.foldl
        (fun reg en => if localName = en then insertReg reg localName ⟨ImportType.Named⟩ else reg)
        reg)
      localName).isSome = true := by
  induction names generalizing reg with
  | nil => cases h
  | cons a names ih =>
    rcases List.mem_cons.mp h with ha | ha
    · subst ha
      have hstep :
          (if localName = localName then insertReg reg localName ⟨ImportType.Named⟩ else reg) =
            insertReg reg localName ⟨ImportType.Named⟩ := if_pos rfl
      rw [List.foldl_cons, hstep]
      exact lookupReg_foldl_isSome _ (fun reg a k h => namedStep_mono localName reg a k h)
        names _ localName (by rw [lookupReg_insert]; simp)
    · exact ih _ ha

theorem processSpecifier_establish (c : EmotionModuleConfig) (s : ImportSpecifier)
    (reg : Registry) (k : String) (h : specRegisters c s k) :
    (lookupReg (processSpecifier c reg s) k).isSome = true := by
  rcases h with ⟨imp, hs, hmem⟩ | ⟨hs, hd⟩ | hs
  · subst hs
    exact namedFoldl_establish k c.exported_names reg hmem
  · subst hs
    simp only [processSpecifier]
    rw [if_pos hd, lookupReg_insert]
    simp
  · subst hs
    simp only [processSpecifier]
    rw [lookupReg_insert]
    simp

theorem specsFoldl_establish (c : EmotionModuleConfig) (specs : List ImportSpecifier)
    (s : ImportSpecifier) (reg : Registry) (k : String) (hs : s ∈ specs)
    (h : specRegisters c s k) :
    (lookupReg (specs.foldl (processSpecifier c) reg) k).isSome = true := by
  induction specs generalizing reg with
  | nil => cases hs
  | cons a specs ih =>
    rcases List.mem_cons.mp hs with ha | ha
    · subst ha
      exact lookupReg_foldl_isSome _ (fun reg a k h => processSpecifier_mono c a reg k h)
        specs _ k (processSpecifier_establish c s reg k h)
    · exact ih _ ha

theorem configStep_mono (d : ImportDecl) (reg : Registry) (c : EmotionModuleConfig) (k : String)
    (h : (lookupReg reg k).isSome = true) :
    (lookupReg
      (if d.src = c.module_name then d.specifiers.foldl (processSpecifier c) reg else reg)
      k).isSome = true := by
  by_cases hm : d.src = c.module_name
  · rw [if_pos hm]
    exact lookupReg_foldl_isSome _ (fun reg a k h => processSpecifier_mono c a reg k h)
      d.specifiers reg k h
  · rw [if_neg hm]; exact h

theorem configsFoldl_establish (configs : List EmotionModuleConfig) (d : ImportDecl)
    (c : EmotionModuleConfig) (reg : Registry) (k : String) (hc : c ∈ configs)
    (hm : d.src = c.module_name) (s : ImportSpecifier) (hs : s ∈ d.specifiers)
    (hreg : specRegisters c s k) :
    (lookupReg
      (configs.foldl
        (fun reg c =>
          if d.src = c.module_name then d.specifiers.foldl (processSpecifier c) reg else reg)
        reg)
      k).isSome = true := by
  induction configs generalizing reg with
  | nil => cases hc
  | cons a configs ih =>
    rcases List.mem_cons.mp hc with ha | ha
    · subst ha
      simp only [List.foldl_cons, if_pos hm]
      exact lookupReg_foldl_isSome _ (fun reg a k h => configStep_mono d reg a k h)
        configs _ k (specsFoldl_establish c d.specifiers s reg k hs hreg)
    · exact ih _ ha

theorem generateImportInfo_establish (custom : List EmotionModuleConfig) (reg : Registry)
    (d : ImportDecl) (c : EmotionModuleConfig)
    (hc : c ∈ EMOTION_OFFICIAL_LIBRARIES ++ custom) (hm : d.src = c.module_name)
    (s : ImportSpecifier) (hs : s ∈ d.specifiers) (hreg : specRegisters c s k) :
    (lookupReg (generateImportInfo custom reg d) k).isSome = true :=
  configsFoldl_establish _ d c reg k hc hm s hs hreg

theorem lookupReg_insert_inv (reg : Registry) (k k' : String) (v : PackageMeta)
    (h : (lookupReg (insertReg reg k' v) k).isSome = true) :
    (lookupReg reg k).isSome = true ∨ k = k' := by
  rw [lookupReg_insert] at h
  by_cases hk : k' = k
  · exact Or.inr hk.symm
  · rw [if_neg hk] at h
    exact Or.inl h

theorem namedFoldl_inv (localName : String) (names : List String) (reg : Registry) (k : String)
    (h : (lookupReg
      (names.foldl
        (fun reg en => if localName = en then insertReg reg localName ⟨ImportType.Named⟩ else reg)
        reg)
      k).isSome = true) :
    (lookupReg reg k).isSome = true ∨ (k = localName ∧ localName ∈ names) := by
  induction names generalizing reg with
  | nil => exact Or.inl h
  | cons a names ih =>
    rw [List.foldl_cons] at h
    rcases ih _ h with h1 | ⟨hk, hm⟩
    · by_cases ha : localName = a
      · rw [if_pos ha] at h1
        rcases lookupReg_insert_inv _ _ _ _ h1 with h2 | h2
        · exact Or.inl h2
        · exact Or.inr ⟨h2, by rw [ha]; exact List.mem_cons_self a names⟩
      · rw [if_neg ha] at h1
        exact Or.inl h1
    · exact Or.inr ⟨hk, List.mem_cons_of_mem a hm⟩

theorem processSpecifier_inv (c : EmotionModuleConfig) (s : ImportSpecifier) (reg : Registry)
    (k : String) (h : (lookupReg (processSpecifier c reg s) k).isSome = true) :
    (lookupReg reg k).isSome = true ∨ specRegisters c s k := by
  cases s with
  | Named localName imported =>
    simp only [processSpecifier] at h
    rcases namedFoldl_inv localName _ reg k h with h1 | ⟨hk, hm⟩
    · exact Or.inl h1
    · subst hk
      exact Or.inr (Or.inl ⟨imported, rfl, hm⟩)
  | Default localName =>
    simp only [processSpecifier] at h
    by_cases hd : c.has_default_export.getD false = true
    · rw [if_pos hd] at h
      rcases lookupReg_insert_inv _ _ _ _ h with h1 | hk
      · exact Or.inl h1
      · subst hk
        exact Or.inr (Or.inr (Or.inl ⟨rfl, hd⟩))
    · rw [if_neg hd] at h
      exact Or.inl h
  | Namespace localName =>
    simp only [processSpecifier] at h
    rcases lookupReg_insert_inv _ _ _ _ h with h1 | hk
    · exact Or.inl h1
    · subst hk
      exact Or.inr (Or.inr (Or.inr rfl))

theorem specsFoldl_inv (c : EmotionModuleConfig) (specs : List ImportSpecifier) (reg : Registry)
    (k : String) (h : (lookupReg (specs.foldl (processSpecifier c) reg) k).isSome = true) :
    (lookupReg reg k).isSome = true ∨ ∃ s ∈ specs, specRegisters c s k := by
  induction specs generalizing reg with
  | nil => exact Or.inl h
  | cons a specs ih =>
    rw [List.foldl_cons] at h
    rcases ih _ h with h1 | ⟨s, hs, hr⟩
    · rcases processSpecifier_inv c a reg k h1 with h2 | h2
      · exact Or.inl h2
      · exact Or.inr ⟨a, List.mem_cons_self a specs, h2⟩
    · exact Or.inr ⟨s, List.mem_cons_of_mem a hs, hr⟩

theorem configsFoldl_inv (configs : List EmotionModuleConfig) (d : ImportDecl) (reg : Registry)
    (k : String)
    (h : (lookupReg
      (configs.foldl
        (fun reg c =>
          if d.src = c.module_name then d.specifiers.foldl (processSpecifier c) reg else reg)
        reg)
      k).isSome = true) :
    (lookupReg reg k).isSome = true ∨
      ∃ c ∈ configs, d.src = c.module_name ∧ ∃ s ∈ d.specifiers, specRegisters c s k := by
  induction configs generalizing reg with
  | nil => exact Or.inl h
  | cons a configs ih =>
    rw [List.foldl_cons] at h
    rcases ih _ h with h1 | ⟨c, hc, hm, s, hs, hr⟩
    · by_cases hm : d.src = a.module_name
      · rw [if_pos hm] at h1
        rcases specsFoldl_inv a d.specifiers reg k h1 with h2 | ⟨s, hs, hr⟩
        · exact Or.inl h2
        · exact Or.inr ⟨a, List.mem_cons_self a configs, hm, s, hs, hr⟩
      · rw [if_neg hm] at h1
        exact Or.inl h1
    · exact Or.inr ⟨c, List.mem_cons_of_mem a hc, hm, s, hs, hr⟩

theorem generateImportInfo_inv (custom : List EmotionModuleConfig) (reg : Registry)
    (d : ImportDecl) (k : String)
    (h : (lookupReg (generateImportInfo custom reg d) k).isSome = true) :
    (lookupReg reg k).isSome = true ∨
      ∃ c ∈ EMOTION_OFFICIAL_LIBRARIES ++ custom, d.src = c.module_name ∧
        ∃ s ∈ d.specifiers, specRegisters c s k :=
  configsFoldl_inv _ d reg k h

theorem foldImportDecl_type_only (t : EmotionTransformer) (d : ImportDecl)
    (h : d.type_only = true) : foldImportDecl t d = t := by
  simp [foldImportDecl, h]

theorem foldImportDecl_packages (t : EmotionTransformer) (d : ImportDecl)
    (h : d.type_only = false) :
    (foldImportDecl t d).import_packages =
      generateImportInfo t.custom_modules t.import_packages d := by
  simp [foldImportDecl, h]

theorem foldImportDecl_custom (t : EmotionTransformer) (d : ImportDecl) :
    (foldImportDecl t d).custom_modules = t.custom_modules := by
  unfold foldImportDecl
  split <;> rfl

theorem foldImportDecl_count (t : EmotionTransformer) (d : ImportDecl) :
    (foldImportDecl t d).emotion_target_class_name_count =
      t.emotion_target_class_name_count := by
  unfold foldImportDecl
  split <;> rfl

theorem foldlImports_filter (decls : List ImportDecl) (t : EmotionTransformer) :
    decls.foldl foldImportDecl t =
      (decls.filter (fun d => !d.type_only)).foldl foldImportDecl t := by
  induction decls generalizing t with
  | nil => rfl
  | cons d decls ih =>
    rw [List.foldl_cons]
    cases hd : d.type_only with
    | false =>
      rw [List.filter_cons_of_pos (by simp [hd]), List.foldl_cons]
      exact ih _
    | true =>
      rw [foldImportDecl_type_only t d hd, List.filter_cons_of_neg (by simp [hd])]
      exact ih _

theorem foldlImports_inv (decls : List ImportDecl) (t : EmotionTransformer) (k : String)
    (h : (lookupReg (decls.foldl foldImportDecl t).import_packages k).isSome = true) :
    (lookupReg t.import_packages k).isSome = true ∨
      ∃ d ∈ decls, d.type_only = false ∧
        ∃ c ∈ EMOTION_OFFICIAL_LIBRARIES ++ t.custom_modules, d.src = c.module_name ∧
          ∃ s ∈ d.specifiers, specRegisters c s k := by
  induction decls generalizing t with
  | nil => exact Or.inl h
  | cons d decls ih =>
    rw [List.foldl_cons] at h
    have hcm := foldImportDecl_custom t d
    rcases ih (foldImportDecl t d) h with h1 | ⟨d', hd', hto, c, hc, hm, s, hs, hr⟩
    · cases hto : d.type_only with
      | true =>
        rw [foldImportDecl_type_only t d hto] at h1
        exact Or.inl h1
      | false =>
        rw [foldImportDecl_packages t d hto] at h1
        rcases generateImportInfo_inv _ _ _ _ h1 with h2 | ⟨c, hc, hm, s, hs, hr⟩
        · exact Or.inl h2
        · exact Or.inr ⟨d, List.mem_cons_self d decls, hto, c, hc, hm, s, hs, hr⟩
    · rw [hcm] at hc
      exact Or.inr ⟨d', List.mem_cons_of_mem d hd', hto, c, hc, hm, s, hs, hr⟩

theorem spliceArgs_of_long (e : CallExpr) (nm : String) (h : 2 < e.args.length) :
    spliceArgs e nm = e := by
  obtain ⟨callee, args⟩ := e
  simp only at h
  match args, h with
  | a :: b :: c :: rest, _ => rfl

theorem spliceArgs_of_two_nonobject (e : CallExpr) (nm : String) (a1 a2 : ExprOrSpread)
    (ha : e.args = [a1, a2]) (h2 : ∀ props, a2.expr ≠ ArgExpr.object props) :
    spliceArgs e nm = e := by
  obtain ⟨callee, args⟩ := e
  simp only at ha
  subst ha
  cases hx : a2.expr with
  | object props => exact absurd hx (h2 props)
  | nonObject =>
    simp only [spliceArgs, hx]

theorem triggered_parts (t : EmotionTransformer) (e : CallExpr)
    (h : generationTriggered t e = true) :
    t.import_packages.isEmpty = false ∧
      ∃ i, e.callee = CalleeShape.exprIdent i ∧
        ((lookupReg t.import_packages i).isSome && !e.args.isEmpty) = true ∧
        ∃ filename, t.source_file.name = FileName.real filename := by
  unfold generationTriggered at h
  rw [Bool.and_eq_true] at h
  obtain ⟨hne, hrest⟩ := h
  rw [Bool.not_eq_true'] at hne
  refine ⟨hne, ?_⟩
  cases hc : e.callee with
  | exprIdent i =>
    rw [hc] at hrest
    simp only at hrest
    rw [Bool.and_eq_true] at hrest
    obtain ⟨hla, hname⟩ := hrest
    refine ⟨i, rfl, hla, ?_⟩
    cases hn : t.source_file.name with
    | real p => exact ⟨p, rfl⟩
    | notReal => rw [hn] at hname; simp at hname
  | exprCall => rw [hc] at hrest; simp at hrest
  | exprMember => rw [hc] at hrest; simp at hrest
  | exprOther => rw [hc] at hrest; simp at hrest
  | notExpr => rw [hc] at hrest; simp at hrest

theorem foldCallExpr_not_triggered (fs : FS) (cache : Cache) (t : EmotionTransformer)
    (e : CallExpr) (h : generationTriggered t e = false) :
    foldCallExpr fs cache t e = (e, t, cache) := by
  cases hip : t.import_packages.isEmpty with
  | true => simp [foldCallExpr, hip]
  | false =>
    cases hc : e.callee with
    | exprIdent i =>
      cases hla : ((lookupReg t.import_packages i).isSome && !e.args.isEmpty) with
      | false => simp [foldCallExpr, hip, hc, hla]
      | true =>
        cases hn : t.source_file.name with
        | real p => simp [generationTriggered, hip, hc, hla, hn] at h
        | notReal => simp [foldCallExpr, hip, hc, hla, hn]
    | exprCall => simp [foldCallExpr, hip, hc]
    | exprMember => simp [foldCallExpr, hip, hc]
    | exprOther => simp [foldCallExpr, hip, hc]
    | notExpr => simp [foldCallExpr, hip, hc]

theorem foldCallExpr_triggered (fs : FS) (cache : Cache) (t : EmotionTransformer) (e : CallExpr)
    (filename : Path) (h : generationTriggered t e = true)
    (hn : t.source_file.name = FileName.real filename) :
    foldCallExpr fs cache t e =
      (spliceArgs e
        (stableClassName ((findRoot fs cache filename).1.getD ⟨"", filename⟩).package_name
          (finalPath t.source_file.src
            ((findRoot fs cache filename).1.getD ⟨"", filename⟩).root_path filename)
          t.emotion_target_class_name_count),
       { t with emotion_target_class_name_count := t.emotion_target_class_name_count + 1 },
       (findRoot fs cache filename).2) := by
  obtain ⟨hne, i, hc, hla, _⟩ := triggered_parts t e h
  simp [foldCallExpr, hne, hc, hla, hn]

theorem foldCallExpr_count (fs : FS) (cache : Cache) (t : EmotionTransformer) (e : CallExpr) :
    (foldCallExpr fs cache t e).2.1.emotion_target_class_name_count =
      t.emotion_target_class_name_count +
        (if generationTriggered t e = true then 1 else 0) := by
  cases h : generationTriggered t e with
  | false =>
    rw [foldCallExpr_not_triggered fs cache t e h]
    simp
  | true =>
    obtain ⟨_, _, _, _, filename, hn⟩ := triggered_parts t e h
    rw [foldCallExpr_triggered fs cache t e filename h hn]
    simp

theorem foldCallExpr_state (fs : FS) (cache : Cache) (t : EmotionTransformer) (e : CallExpr)
    (h : generationTriggered t e = true) :
    (foldCallExpr fs cache t e).2.1 =
      { t with emotion_target_class_name_count := t.emotion_target_class_name_count + 1 } := by
  obtain ⟨_, _, _, _, filename, hn⟩ := triggered_parts t e h
  rw [foldCallExpr_triggered fs cache t e filename h hn]

theorem findRoot_no_hits (fs : FS) (cache : Cache) :
    ∀ p : Path, (∀ d, d <:+ p → d ≠ p → cacheGet cache d = none ∧ fs.manifest d = none) →
      findRoot fs cache p = (none, cache) := by
  intro p
  induction p with
  | nil => intro _; rfl
  | cons c parent ih =>
    intro hall
    have hpar : parent <:+ c :: parent := List.suffix_cons c parent
    have hne : parent ≠ c :: parent := by
      intro hc
      have hl := congrArg List.length hc
      simp at hl
    obtain ⟨hcache, hman⟩ := hall parent hpar hne
    cases hex : fs.dirExists parent with
    | false => simp [findRoot, hcache, hex]
    | true =>
      have hrec : findRoot fs cache (c :: parent) = findRoot fs cache parent := by
        simp [findRoot, hcache, hex, hman]
      rw [hrec]
      refine ih ?_
      intro d hd hdne
      refine hall d (hd.trans hpar) ?_
      intro hc
      have h1 := hd.length_le
      have hl := congrArg List.length hc
      simp at hl
      omega

theorem foldItem_count (fs : FS) (acc : EmotionTransformer × Cache) (it : ModuleItem) :
    (foldItem fs acc it).1.emotion_target_class_name_count =
        acc.1.emotion_target_class_name_count ∨
      (foldItem fs acc it).1.emotion_target_class_name_count =
        acc.1.emotion_target_class_name_count + 1 := by
  cases it with
  | importItem d => exact Or.inl (foldImportDecl_count acc.1 d)
  | callItem e =>
    have hc := foldCallExpr_count fs acc.2 acc.1 e
    by_cases h : generationTriggered acc.1 e = true
    · right
      rw [if_pos h] at hc
      exact hc
    · left
      rw [if_neg h] at hc
      simpa using hc
  | otherItem => exact Or.inl rfl

theorem foldItems_count_le (fs : FS) :
    ∀ (items : List ModuleItem) (acc : EmotionTransformer × Cache),
      acc.1.emotion_target_class_name_count ≤
        (foldItems fs acc items).1.emotion_target_class_name_count := by
  intro items
  induction items with
  | nil => intro acc; exact Nat.le_refl _
  | cons it rest ih =>
    intro acc
    have h1 := foldItem_count fs acc it
    have h2 := ih (foldItem fs acc it)
    show acc.1.emotion_target_class_name_count ≤
      (foldItems fs (foldItem fs acc it) rest).1.emotion_target_class_name_count
    rcases h1 with h1 | h1 <;> omega

theorem seqTrace_eq_range' (fs : FS) :
    ∀ (items : List ModuleItem) (t : EmotionTransformer) (cache : Cache),
      seqTrace fs t cache items =
        List.range' t.emotion_target_class_name_count
          ((foldItems fs (t, cache) items).1.emotion_target_class_name_count -
            t.emotion_target_class_name_count) := by
  intro items
  induction items with
  | nil => intro t cache; simp [seqTrace, foldItems]
  | cons it rest ih =>
    intro t cache
    have hstep :
        seqTrace fs t cache (it :: rest) =
          (if t.emotion_target_class_name_count <
              (foldItem fs (t, cache) it).1.emotion_target_class_name_count
            then [t.emotion_target_class_name_count] else []) ++
            seqTrace fs (foldItem fs (t, cache) it).1 (foldItem fs (t, cache) it).2 rest := rfl
    have hfold :
        foldItems fs (t, cache) (it :: rest) = foldItems fs (foldItem fs (t, cache) it) rest :=
      rfl
    have hrest := ih (foldItem fs (t, cache) it).1 (foldItem fs (t, cache) it).2
    have hpair : ((foldItem fs (t, cache) it).1, (foldItem fs (t, cache) it).2) =
        foldItem fs (t, cache) it := rfl
    rw [hpair] at hrest
    have hle := foldItems_count_le fs rest (foldItem fs (t, cache) it)
    rcases foldItem_count fs (t, cache) it with heq | heq
    · rw [hstep, hfold, hrest, heq]
      rw [if_neg (Nat.lt_irrefl _)]
      simp
    · rw [hstep, hfold, hrest, heq]
      rw [if_pos (Nat.lt_succ_self _)]
      have hn :
          (foldItems fs (foldItem fs (t, cache) it) rest).1.emotion_target_class_name_count -
            t.emotion_target_class_name_count =
          ((foldItems fs (foldItem fs (t, cache) it) rest).1.emotion_target_class_name_count -
            (t.emotion_target_class_name_count + 1)) + 1 := by
        have h2 : t.emotion_target_class_name_count + 1 ≤
            (foldItems fs (foldItem fs (t, cache) it) rest).1.emotion_target_class_name_count := by
          rw [← heq]
          exact hle
        omega
      rw [hn]
      rfl

theorem chain'_range'_one (n : Nat) :
    ∀ s : Nat, List.Chain' (fun a b => b = a + 1) (List.range' s n) := by
  induction n with
  | zero => intro s; simp
  | succ n ih =>
    intro s
    cases n with
    | zero => simp
    | succ m =>
      rw [show List.range' s (m + 1 + 1) = s :: List.range' (s + 1) (m + 1) from rfl]
      rw [List.chain'_cons']
      constructor
      · intro b hb
        rw [show List.range' (s + 1) (m + 1) = (s + 1) :: List.range' (s + 2) m from rfl] at hb
        simp at hb
        omega
      · exact ih (s + 1)

/-! ### The claims -/

/-- C1: the claim states that a named import specifier is registered exactly
when the pre-aliasing exported name is in the recognized set, keyed by the
local alias, so that `import \x7b css as styleIt \x7d from "@emotion/react"`
registers `styleIt`.  The code instead compares the LOCAL name against the
recognized set: the aliased import registers nothing (likewise the
`default as whateverStyled` form that the comment above
`generate_import_info` lists as supported), while an import aliasing an
unrecognized export onto the local name `css` is registered. -/
theorem C1_named_alias_divergence :
    generateImportInfo [] []
        ⟨"@emotion/react", false, [ImportSpecifier.Named "styleIt" (some "css")]⟩ = [] ∧
    generateImportInfo [] []
        ⟨"@emotion/styled", false,
          [ImportSpecifier.Named "whateverStyled" (some "default")]⟩ = [] ∧
    generateImportInfo [] []
        ⟨"@emotion/react", false, [ImportSpecifier.Named "css" (some "whatever")]⟩ =
      [("css", ⟨ImportType.Named⟩)] := by
  decide

/-- C2: the claim states that a manifest which exists but cannot be opened or
parsed makes that resolution attempt fail recoverably, without a process
abort.  The embedded `GlobalParentCache::insert` instead unwraps both the
open and the parse, so a manifest whose contents do not parse panics: the
insert is a process abort, not a recoverable failure. -/
theorem C2_malformed_manifest_panics :
    cacheInsertChecked (some "\x7b oops") (fun _ => none) [] [PComp.txt "pkg"]
      [PComp.txt "pkg"] = Except.error () := rfl

/-- C3 counterexample: with resolved root `/a` and file `/a/a/b`, the code
produces fragment `/b` — the prefix is stripped repeatedly — while stripping
the root exactly once, as the claim states, would give `/a/b`. -/
theorem C3_strip_once_counterexample :
    pathToStr [PComp.txt "a"] = some "/a" ∧
    pathToStr [PComp.txt "b", PComp.txt "a", PComp.txt "a"] = some "/a/a/b" ∧
    finalPath "SRC" [PComp.txt "a"] [PComp.txt "b", PComp.txt "a", PComp.txt "a"] = "/b" ∧
    specStripPrefixOnce "/a/a/b" "/a" = "/a/b" ∧
    ("/b" : String) ≠ "/a/b" := by
  decide

/-- C3 (amended): for every file path the fragment is the literal `root` when
the resolved root path equals the file path (never the empty string); and
otherwise, for paths representable as text, it is the rendered file path with
the rendered root stripped from the front repeatedly, as a plain string
prefix: the result is the file path minus some number of leading copies of
the root string, and it no longer starts with the root string. -/
theorem C3_fragment (src : String) (root file : Path) :
    (root = file → finalPath src root file = "root" ∧ finalPath src root file ≠ "") ∧
    (∀ r f : String, root ≠ file → pathToStr root = some r → pathToStr file = some f →
      finalPath src root file = trimStartMatches f r ∧
      ∃ k, f.data = (List.replicate k r.data).flatten ++ (trimStartMatches f r).data ∧
        r.data.isPrefixOf (trimStartMatches f r).data = false) := by
  constructor
  · intro h
    have hr : finalPath src root file = "root" := by simp [finalPath, h]
    refine ⟨hr, ?_⟩
    rw [hr]
    decide
  · intro r f hne hr hf
    have hfe : finalPath src root file = trimStartMatches f r := by
      simp [finalPath, hne, hr, hf]
    exact ⟨hfe, trimStartMatches_spec f r (pathToStr_data_ne_nil root r hr)⟩

/-- C3 witness: both branches of the amended statement at concrete inputs. -/
theorem C3_fragment_witness :
    finalPath "S" [PComp.txt "a"] [PComp.txt "a"] = "root" ∧
    finalPath "S" [PComp.txt "a"] [PComp.txt "b", PComp.txt "a"] =
      trimStartMatches "/a/b" "/a" :=
  ⟨((C3_fragment "S" [PComp.txt "a"] [PComp.txt "a"]).1 rfl).1,
   ((C3_fragment "S" [PComp.txt "a"] [PComp.txt "b", PComp.txt "a"]).2 "/a" "/a/b"
      (by decide) (by decide) (by decide)).1⟩

/-- C4: a user-supplied custom module configuration — declared after the
built-ins and possibly sharing a module name with one — takes effect: for
an import from a matching module name, any named specifier whose local name
is in that configuration's exported names, any default specifier when the
configuration declares a default export, and any namespace specifier, ends up
registered. -/
theorem C4_custom_config_applies (custom : List EmotionModuleConfig) (reg : Registry)
    (d : ImportDecl) (c : EmotionModuleConfig)
    (hc : c ∈ EMOTION_OFFICIAL_LIBRARIES ++ custom) (hm : d.src = c.module_name) :
    (∀ l imp, ImportSpecifier.Named l imp ∈ d.specifiers → l ∈ c.exported_names →
      (lookupReg (generateImportInfo custom reg d) l).isSome = true) ∧
    (∀ l, ImportSpecifier.Default l ∈ d.specifiers → c.has_default_export = some true →
      (lookupReg (generateImportInfo custom reg d) l).isSome = true) ∧
    (∀ l, ImportSpecifier.Namespace l ∈ d.specifiers →
      (lookupReg (generateImportInfo custom reg d) l).isSome = true) := by
  refine ⟨?_, ?_, ?_⟩
  · intro l imp hs hmem
    exact generateImportInfo_establish custom reg d c hc hm _ hs (Or.inl ⟨imp, rfl, hmem⟩)
  · intro l hs hd
    exact generateImportInfo_establish custom reg d c hc hm _ hs
      (Or.inr (Or.inl ⟨rfl, by rw [hd]; rfl⟩))
  · intro l hs
    exact generateImportInfo_establish custom reg d c hc hm _ hs (Or.inr (Or.inr rfl))

/-- C4 witness: a custom configuration sharing the module name
`@emotion/react` with a built-in registers both its own named export and a
default import. -/
theorem C4_custom_config_applies_witness :
    (lookupReg
      (generateImportInfo [⟨"@emotion/react", ["myCss"], none, some true⟩] []
        ⟨"@emotion/react", false,
          [ImportSpecifier.Named "myCss" none, ImportSpecifier.Default "emotionDefault"]⟩)
      "myCss").isSome = true ∧
    (lookupReg
      (generateImportInfo [⟨"@emotion/react", ["myCss"], none, some true⟩] []
        ⟨"@emotion/react", false,
          [ImportSpecifier.Named "myCss" none, ImportSpecifier.Default "emotionDefault"]⟩)
      "emotionDefault").isSome = true :=
  ⟨(C4_custom_config_applies [⟨"@emotion/react", ["myCss"], none, some true⟩] []
      ⟨"@emotion/react", false,
        [ImportSpecifier.Named "myCss" none, ImportSpecifier.Default "emotionDefault"]⟩
      ⟨"@emotion/react", ["myCss"], none, some true⟩ (by decide) rfl).1 "myCss" none
      (by decide) (by decide),
   (C4_custom_config_applies [⟨"@emotion/react", ["myCss"], none, some true⟩] []
      ⟨"@emotion/react", false,
        [ImportSpecifier.Named "myCss" none, ImportSpecifier.Default "emotionDefault"]⟩
      ⟨"@emotion/react", ["myCss"], none, some true⟩ (by decide) rfl).2.1 "emotionDefault"
      (by decide) rfl⟩

/-- C5: the generated identifier is the letter `e`, then the 32-bit Murmur2
hash of the package name concatenated with the fragment rendered in decimal,
then the sequence number in decimal, with no separators; identical inputs
give identical outputs, the hash fits in 32 bits, and every character of the
output is identifier-legal (`e` or a decimal digit). -/
theorem C5_stable_identifier (p f : String) (s : Nat) :
    stableClassName p f s =
      "e" ++ Nat.repr (murmurhash2 (strBytes (p ++ f))) ++ Nat.repr s ∧
    (∀ p' f' s', p = p' → f = f' → s = s' →
      stableClassName p f s = stableClassName p' f' s') ∧
    murmurhash2 (strBytes (p ++ f)) < 2 ^ 32 ∧
    (∀ c, c ∈ (stableClassName p f s).data → c = 'e' ∨ c.isDigit = true) := by
  refine ⟨rfl, ?_, murmurhash2_lt _, ?_⟩
  · intro p' f' s' hp hf hs
    rw [hp, hf, hs]
  · intro c hc
    have hd : (stableClassName p f s).data =
        'e' :: ((Nat.repr (murmurhash2 (strBytes (p ++ f)))).data ++ (Nat.repr s).data) := by
      show (("e" ++ Nat.repr (murmurhash2 (strBytes (p ++ f)))) ++ Nat.repr s).data = _
      rw [String.data_append, String.data_append]
      rfl
    rw [hd] at hc
    rcases List.mem_cons.mp hc with hc | hc
    · exact Or.inl hc
    · rcases List.mem_append.mp hc with hc | hc
      · exact Or.inr (repr_digits _ c hc)
      · exact Or.inr (repr_digits _ c hc)

/-- C5 witness: purity instantiated at a concrete input. -/
theorem C5_stable_identifier_witness :
    stableClassName "pkg-a" "/src/button.ts" 0 = stableClassName "pkg-a" "/src/button.ts" 0 :=
  (C5_stable_identifier "pkg-a" "/src/button.ts" 0).2.1 "pkg-a" "/src/button.ts" 0 rfl rfl rfl

/-- C6: `resolve` starts at the parent of the file path and walks ancestors:
a path without parent yields nothing; a cached parent returns its cached
value; an existing parent holding a manifest yields its name and that
directory, inserted into the cache keyed by that directory; an existing
parent without a manifest recurses on the parent; a parent that does not
exist on disk ends the walk with nothing.  When no ancestor is cached or
holds a manifest the result is nothing and the cache is untouched, and the
caller then substitutes the fallback identity: empty package name, root path
equal to the original file path. -/
theorem C6_find_root (fs : FS) (cache : Cache) (p : Path) (c0 : PComp) (parent : Path) :
    findRoot fs cache [] = (none, cache) ∧
    (∀ info, cacheGet cache parent = some info →
      findRoot fs cache (c0 :: parent) = (some info, cache)) ∧
    (∀ nm, cacheGet cache parent = none → fs.dirExists parent = true →
      fs.manifest parent = some nm →
      findRoot fs cache (c0 :: parent) =
        (some ⟨nm, parent⟩, cacheInsert cache parent ⟨nm, parent⟩)) ∧
    (cacheGet cache parent = none → fs.dirExists parent = true →
      fs.manifest parent = none →
      findRoot fs cache (c0 :: parent) = findRoot fs cache parent) ∧
    (cacheGet cache parent = none → fs.dirExists parent = false →
      findRoot fs cache (c0 :: parent) = (none, cache)) ∧
    ((∀ d, d <:+ p → d ≠ p → cacheGet cache d = none ∧ fs.manifest d = none) →
      findRoot fs cache p = (none, cache)) ∧
    ((findRoot fs cache p).1 = none →
      (findRoot fs cache p).1.getD ⟨"", p⟩ = RootPathInfo.mk "" p) := by
  refine ⟨rfl, ?_, ?_, ?_, ?_, findRoot_no_hits fs cache p, ?_⟩
  · intro info h
    simp [findRoot, h]
  · intro nm h1 h2 h3
    simp [findRoot, h1, h2, h3]
  · intro h1 h2 h3
    simp [findRoot, h1, h2, h3]
  · intro h1 h2
    simp [findRoot, h1, h2]
  · intro h
    rw [h]
    rfl

/-- C6 witness: on an empty filesystem the walk from `/pkg/file.ts` yields
nothing and leaves the cache empty; on a filesystem where `/pkg` holds a
manifest named `pkg-a`, the walk returns that identity and caches it under
`/pkg`. -/
theorem C6_find_root_witness :
    findRoot fsEmpty [] [PComp.txt "file.ts", PComp.txt "pkg"] = (none, []) ∧
    findRoot fsSample [] [PComp.txt "file.ts", PComp.txt "pkg"] =
      (some ⟨"pkg-a", [PComp.txt "pkg"]⟩,
        [([PComp.txt "pkg"], ⟨"pkg-a", [PComp.txt "pkg"]⟩)]) :=
  ⟨(C6_find_root fsEmpty [] [PComp.txt "file.ts", PComp.txt "pkg"] (PComp.txt "x")
      []).2.2.2.2.2.1 (fun _ _ _ => ⟨rfl, rfl⟩),
   (C6_find_root fsSample [] [] (PComp.txt "file.ts") [PComp.txt "pkg"]).2.2.1 "pkg-a" rfl
      (by decide) (by decide)⟩

/-- C7: the per-file counter starts at 0 at construction, and over one file
pass the sequence components of the generated identifiers are exactly
`0, 1, 2, ...` in order: each generation increments the counter by exactly
one, the counter never resets, and successive components are strictly
increasing. -/
theorem C7_sequence_counter (fs : FS) (options : EmotionOptions) (sf : SourceFileInfo)
    (rjr emi : Bool) (cache : Cache) (items : List ModuleItem) :
    (newEmotionTransformer options sf rjr emi).emotion_target_class_name_count = 0 ∧
    seqTrace fs (newEmotionTransformer options sf rjr emi) cache items =
      List.range' 0
        ((foldItems fs (newEmotionTransformer options sf rjr emi, cache)
            items).1.emotion_target_class_name_count) ∧
    List.Chain' (fun a b => b = a + 1)
      (seqTrace fs (newEmotionTransformer options sf rjr emi) cache items) ∧
    List.Pairwise (· < ·)
      (seqTrace fs (newEmotionTransformer options sf rjr emi) cache items) := by
  have h0 : (newEmotionTransformer options sf rjr emi).emotion_target_class_name_count = 0 :=
    rfl
  have ht := seqTrace_eq_range' fs items (newEmotionTransformer options sf rjr emi) cache
  rw [h0, Nat.sub_zero] at ht
  refine ⟨h0, ht, ?_, ?_⟩
  · rw [ht]
    exact chain'_range'_one _ 0
  · rw [ht]
    exact List.pairwise_lt_range' 0 _

/-- C8: a type-only import leaves the transformer untouched; a pass over the
file's import declarations equals the pass over its non-type-only ones;
an empty registry leaves every call expression and the whole state untouched;
and every binding in the registry after a pass traces back either to the
starting registry or to a non-type-only declaration whose module name matches
a configuration and whose specifier satisfies that configuration's rules. -/
theorem C8_registry_soundness (t : EmotionTransformer) (d : ImportDecl) :
    (d.type_only = true → foldImportDecl t d = t) ∧
    (∀ decls : List ImportDecl,
      decls.foldl foldImportDecl t =
        (decls.filter (fun d => !d.type_only)).foldl foldImportDecl t) ∧
    (t.import_packages = [] → ∀ (fs : FS) (cache : Cache) (e : CallExpr),
      foldCallExpr fs cache t e = (e, t, cache)) ∧
    (∀ (decls : List ImportDecl) (k : String),
      (lookupReg (decls.foldl foldImportDecl t).import_packages k).isSome = true →
      (lookupReg t.import_packages k).isSome = true ∨
        ∃ d' ∈ decls, d'.type_only = false ∧
          ∃ c ∈ EMOTION_OFFICIAL_LIBRARIES ++ t.custom_modules, d'.src = c.module_name ∧
            ∃ s ∈ d'.specifiers, specRegisters c s k) := by
  refine ⟨foldImportDecl_type_only t d, fun decls => foldlImports_filter decls t, ?_, ?_⟩
  · intro hreg fs cache e
    apply foldCallExpr_not_triggered
    simp [generationTriggered, hreg]
  · intro decls k h
    exact foldlImports_inv decls t k h

/-- C8 witness: a type-only import of `css` leaves a fresh transformer
unchanged, and with its registry still empty a later `css` call is returned
untouched together with the state. -/
theorem C8_registry_soundness_witness :
    foldImportDecl (newEmotionTransformer sampleOptions sampleSourceFile false false)
        ⟨"@emotion/react", true, [ImportSpecifier.Named "css" none]⟩ =
      newEmotionTransformer sampleOptions sampleSourceFile false false ∧
    foldCallExpr fsEmpty [] (newEmotionTransformer sampleOptions sampleSourceFile false false)
        sampleCall1 =
      (sampleCall1, newEmotionTransformer sampleOptions sampleSourceFile false false, []) :=
  ⟨(C8_registry_soundness (newEmotionTransformer sampleOptions sampleSourceFile false false)
      ⟨"@emotion/react", true, [ImportSpecifier.Named "css" none]⟩).1 rfl,
   (C8_registry_soundness (newEmotionTransformer sampleOptions sampleSourceFile false false)
      ⟨"@emotion/react", true, [ImportSpecifier.Named "css" none]⟩).2.2.1 rfl fsEmpty []
      sampleCall1⟩

/-- C9 counterexample: a file at a non-text path with no ancestor manifest
gets the fallback root equal to the file path itself, and the fragment is
then the literal `root`, not the source text, although the file path cannot
be represented as text — refuting the claim as stated. -/
theorem C9_nontext_counterexample :
    pathToStr [PComp.bin 0] = none ∧
    (findRoot fsEmpty [] [PComp.bin 0]).1 = none ∧
    finalPath "SRC" [PComp.bin 0] [PComp.bin 0] = "root" ∧
    ("root" : String) ≠ "SRC" := by
  decide

/-- C9 (amended): whenever the resolved root path differs from the file path
and either of the two cannot be represented as text, the fragment falls back
to the full source text of the file; the fallback is deterministic, is never
surfaced as an error, and generation still produces an identifier starting
with the letter `e`. -/
theorem C9_fallback (src : String) (root file : Path) (pn : String) (cnt : Nat)
    (hne : root ≠ file) (h : pathToStr root = none ∨ pathToStr file = none) :
    finalPath src root file = src ∧
    (stableClassName pn (finalPath src root file) cnt).data.head? = some 'e' := by
  have hfp : finalPath src root file = src := by
    rcases h with h | h
    · simp [finalPath, hne, h]
    · cases hr : pathToStr root with
      | none => simp [finalPath, hne, hr]
      | some r => simp [finalPath, hne, hr, h]
  exact ⟨hfp, rfl⟩

/-- C9 witness: the fallback at a concrete non-text file path. -/
theorem C9_fallback_witness :
    finalPath "SRC2" [PComp.txt "a"] [PComp.bin 7] = "SRC2" :=
  (C9_fallback "SRC2" [PComp.txt "a"] [PComp.bin 7] "p" 0 (by decide)
    (Or.inr (by decide))).1

/-- C10: one `fold_call_expr` step bumps the per-file counter exactly once
precisely when the registry is non-empty, the callee is a registered plain
identifier, the argument list is non-empty and the file name is real — and
this is independent of splicing: with more than two arguments, or with a
second argument that is not an object literal, the call comes back unchanged
while the counter still advances; when the condition fails, call, transformer
and cache all come back unchanged. -/
theorem C10_counter_gating (fs : FS) (cache : Cache) (t : EmotionTransformer) (e : CallExpr) :
    ((foldCallExpr fs cache t e).2.1.emotion_target_class_name_count =
      t.emotion_target_class_name_count +
        (if generationTriggered t e = true then 1 else 0)) ∧
    (generationTriggered t e = true → 2 < e.args.length →
      (foldCallExpr fs cache t e).1 = e) ∧
    (generationTriggered t e = true → ∀ a1 a2 : ExprOrSpread, e.args = [a1, a2] →
      (∀ props, a2.expr ≠ ArgExpr.object props) → (foldCallExpr fs cache t e).1 = e) ∧
    (generationTriggered t e = false → foldCallExpr fs cache t e = (e, t, cache)) := by
  refine ⟨foldCallExpr_count fs cache t e, ?_, ?_, foldCallExpr_not_triggered fs cache t e⟩
  · intro h hlen
    obtain ⟨_, _, _, _, filename, hn⟩ := triggered_parts t e h
    rw [foldCallExpr_triggered fs cache t e filename h hn]
    exact spliceArgs_of_long e _ hlen
  · intro h a1 a2 ha hobj
    obtain ⟨_, _, _, _, filename, hn⟩ := triggered_parts t e h
    rw [foldCallExpr_triggered fs cache t e filename h hn]
    exact spliceArgs_of_two_nonobject e _ a1 a2 ha hobj

/-- C10 witness: a registered three-argument call is returned unchanged while
the counter still advances from 0 to 1. -/
theorem C10_counter_gating_witness :
    (foldCallExpr fsEmpty [] sampleTransformer sampleCall3).1 = sampleCall3 ∧
    (foldCallExpr fsEmpty [] sampleTransformer
        sampleCall3).2.1.emotion_target_class_name_count = 1 := by
  constructor
  · exact (C10_counter_gating fsEmpty [] sampleTransformer sampleCall3).2.1 (by decide)
      (by decide)
  · have h := (C10_counter_gating fsEmpty [] sampleTransformer sampleCall3).1
    rw [h]
    decide

end Emotion
